import Mathlib

/-!
# Verification of the `ai-edit` prompt-compilation / response-recovery pipeline

Shallow embedding of the AI text-rewriting endpoints of this repository:

* `src/supabase/functions/ai-edit/index.ts` — the canonical handler
  (validation, prompt compilation, temperature policy, response recovery,
  normalisation and filtering, last-resort catch);
* `src/api/ai-edit.js` — the near-duplicate Vercel edge variant, embedded
  where its behaviour diverges (its normalise/filter stage and lack of a
  last-resort catch).

Strings are modelled as `List Char`.  JavaScript exceptions are modelled
with `Except Unit`; JSON values produced by `JSON.parse` are modelled by
the inductive `JsValue`, with numbers carried as their source lexeme
(no claim in this development depends on floating-point formatting).
-/

namespace Pages

/-- The left-brace character `\x7b`. -/
def lbrace : Char := Char.ofNat 123

/-- The right-brace character `\x7d`. -/
def rbrace : Char := Char.ofNat 125

/-- JavaScript `String.prototype.trim` whitespace set:
ECMA-262 WhiteSpace (TAB, VT, FF, SP, NBSP, ZWNBSP, Unicode Zs)
plus LineTerminator (LF, CR, LS, PS). -/
def isJsWhite (c : Char) : Bool :=
  c.toNat = 9 || c.toNat = 10 || c.toNat = 11 || c.toNat = 12 ||
  c.toNat = 13 || c.toNat = 32 || c.toNat = 160 || c.toNat = 0xFEFF ||
  c.toNat = 0x1680 ||
  (0x2000 ≤ c.toNat && c.toNat ≤ 0x200A) ||
  c.toNat = 0x2028 || c.toNat = 0x2029 ||
  c.toNat = 0x202F || c.toNat = 0x205F || c.toNat = 0x3000

/-- JavaScript `.trim()`: drop leading and trailing whitespace. -/
def trimL (l : List Char) : List Char :=
  ((l.dropWhile isJsWhite).reverse.dropWhile isJsWhite).reverse

/-- The three-backtick fence marker. -/
def fenceTok : List Char := "```".toList

/-- The `json`-tagged opening fence marker. -/
def fenceJsonTok : List Char := "```json".toList

/-- Split `l` at the first occurrence of the token `pat`:
returns the part before the match and the part after it.
`none` when `pat` (assumed non-empty) does not occur. -/
def splitAtTok (pat : List Char) : List Char → Option (List Char × List Char)
  | [] => none
  | c :: rest =>
    if pat.isPrefixOf (c :: rest) then some ([], (c :: rest).drop pat.length)
    else
      match splitAtTok pat rest with
      | some (pre, post) => some (c :: pre, post)
      | none => none

/-- The inner replacement of the first fence pass:
`s.replace(/```json|```/g, "")` — scan left to right, removing
`\x60\x60\x60json` in preference to `\x60\x60\x60`. -/
def removeFenceMarksJson : Nat → List Char → List Char
  | 0, l => l
  | fuel + 1, l =>
    match l with
    | [] => []
    | c :: rest =>
      if fenceJsonTok.isPrefixOf (c :: rest) then
        removeFenceMarksJson fuel ((c :: rest).drop fenceJsonTok.length)
      else if fenceTok.isPrefixOf (c :: rest) then
        removeFenceMarksJson fuel ((c :: rest).drop fenceTok.length)
      else c :: removeFenceMarksJson fuel rest

/-- The inner replacement of the second fence pass:
`s.replace(/```/g, "")`. -/
def removeFenceMarks : Nat → List Char → List Char
  | 0, l => l
  | fuel + 1, l =>
    match l with
    | [] => []
    | c :: rest =>
      if fenceTok.isPrefixOf (c :: rest) then
        removeFenceMarks fuel ((c :: rest).drop fenceTok.length)
      else c :: removeFenceMarks fuel rest

/-- Global lazy-delimited regex replacement, the shape of
`s.replace(/OPEN[\s\S]*?```/g, f)`: at each position, if `openTok`
matches and a closing `fenceTok` occurs later, the (shortest) region from
`openTok` through that close is replaced by `f` applied to the whole
matched slice; otherwise scanning advances one character. -/
def replaceLazyFenced (openTok : List Char) (f : List Char → List Char) :
    Nat → List Char → List Char
  | 0, l => l
  | fuel + 1, l =>
    match l with
    | [] => []
    | c :: rest =>
      if openTok.isPrefixOf (c :: rest) then
        match splitAtTok fenceTok ((c :: rest).drop openTok.length) with
        | some (inner, rest2) =>
          f (openTok ++ inner ++ fenceTok) ++
            replaceLazyFenced openTok f fuel rest2
        | none => c :: replaceLazyFenced openTok f fuel rest
      else c :: replaceLazyFenced openTok f fuel rest

/-- The `clean` preprocessing of `parseAlternatives`
(`src/supabase/functions/ai-edit/index.ts` lines 166-169): strip
`json`-tagged fenced blocks (unwrapping and trimming their content),
then untagged fenced blocks, then trim the whole text. -/
def cleanRaw (raw : List Char) : List Char :=
  let pass1 := replaceLazyFenced fenceJsonTok
      (fun s => trimL (removeFenceMarksJson s.length s)) raw.length raw
  let pass2 := replaceLazyFenced fenceTok
      (fun s => trimL (removeFenceMarks s.length s)) pass1.length pass1
  trimL pass2

/-- `indexOf c` as an optional position. -/
def idxOf (c : Char) : List Char → Option Nat
  | [] => none
  | x :: rest =>
    if x = c then some 0 else (idxOf c rest).map (· + 1)

/-- `lastIndexOf c` as an optional position. -/
def lastIdxOf (c : Char) (l : List Char) : Option Nat :=
  (idxOf c l.reverse).map (fun i => l.length - 1 - i)

/-- JavaScript `slice(start, stop)` on a string (for the in-range
indices the code produces). -/
def sliceL (l : List Char) (start stop : Nat) : List Char :=
  (l.drop start).take (stop - start)

/-! ## JSON values and `JSON.parse`

`JsValue` models the values `JSON.parse` can return.  A number is kept
as its source lexeme: the claims verified here never compare
floating-point formatting, and every syntactic decision (`typeof`,
truthiness, array-ness) is faithful under this representation. -/

/-- A parsed JSON value. -/
inductive JsValue where
  | null : JsValue
  | bool (b : Bool) : JsValue
  | num (lexeme : List Char) : JsValue
  | str (s : List Char) : JsValue
  | arr (elems : List JsValue) : JsValue
  | obj (fields : List (List Char × JsValue)) : JsValue

/-- JSON whitespace accepted by `JSON.parse`: space, TAB, LF, CR. -/
def isJsonWhite (c : Char) : Bool :=
  c.toNat = 32 || c.toNat = 9 || c.toNat = 10 || c.toNat = 13

/-- Skip JSON whitespace. -/
def skipWs (l : List Char) : List Char := l.dropWhile isJsonWhite

/-- Hexadecimal digit value. -/
def hexVal (c : Char) : Option Nat :=
  if '0' ≤ c ∧ c ≤ '9' then some (c.toNat - 48)
  else if 'a' ≤ c ∧ c ≤ 'f' then some (c.toNat - 87)
  else if 'A' ≤ c ∧ c ≤ 'F' then some (c.toNat - 55)
  else none

/-- Parse the body of a JSON string (after the opening quote), handling
the escapes `\" \\ \/ \b \f \n \r \t \uXXXX` and rejecting raw control
characters, as `JSON.parse` does.  (A `\u` escape denoting a lone
surrogate maps through `Char.ofNat`'s fallback; no claim exercises it.) -/
def parseStrBodyF : Nat → List Char → Option (List Char × List Char)
  | 0, _ => none
  | _, [] => none
  | fuel + 1, c :: rest =>
    if c = '"' then some ([], rest)
    else if c = '\\' then
      match rest with
      | [] => none
      | e :: rest2 =>
        let esc : Option (Char × List Char) :=
          if e = '"' then some ('"', rest2)
          else if e = '\\' then some ('\\', rest2)
          else if e = '/' then some ('/', rest2)
          else if e = 'b' then some (Char.ofNat 8, rest2)
          else if e = 'f' then some (Char.ofNat 12, rest2)
          else if e = 'n' then some ('\n', rest2)
          else if e = 'r' then some ('\r', rest2)
          else if e = 't' then some ('\t', rest2)
          else if e = 'u' then
            match rest2 with
            | h1 :: h2 :: h3 :: h4 :: rest3 =>
              match hexVal h1, hexVal h2, hexVal h3, hexVal h4 with
              | some a, some b, some c', some d =>
                some (Char.ofNat (((a * 16 + b) * 16 + c') * 16 + d), rest3)
              | _, _, _, _ => none
            | _ => none
          else none
        match esc with
        | some (ch, rest') =>
          match parseStrBodyF fuel rest' with
          | some (s, rem) => some (ch :: s, rem)
          | none => none
        | none => none
    else if c.toNat < 32 then none
    else
      match parseStrBodyF fuel rest with
      | some (s, rem) => some (c :: s, rem)
      | none => none

/-- Parse the body of a JSON string, fuel instantiated from the input. -/
def parseStrBody (l : List Char) : Option (List Char × List Char) :=
  parseStrBodyF (l.length + 1) l

/-- Parse the digits-only part of a number token (at least one digit). -/
def takeDigits (l : List Char) : List Char × List Char :=
  (l.takeWhile Char.isDigit, l.dropWhile Char.isDigit)

/-- Parse a JSON number token, returning its lexeme.  Grammar:
`-? (0 | [1-9][0-9]*) (. [0-9]+)? ([eE] [+-]? [0-9]+)?`. -/
def parseNum (l : List Char) : Option (List Char × List Char) :=
  let (sign, r1) :=
    match l with
    | '-' :: r => (['-'], r)
    | _ => (([] : List Char), l)
  match r1 with
  | [] => none
  | d :: r2 =>
    if d = '0' then
      let intPart := ['0']
      (parseFracExp (sign ++ intPart) r2)
    else if d.isDigit then
      let (ds, r3) := takeDigits r2
      (parseFracExp (sign ++ d :: ds) r3)
    else none
where
  /-- Optional fraction and exponent after the integer part. -/
  parseFracExp (acc : List Char) (l : List Char) :
      Option (List Char × List Char) :=
    let (acc1, r1) :=
      match l with
      | '.' :: r =>
        match takeDigits r with
        | ([], _) => (none, l)
        | (ds, r') => (some (acc ++ '.' :: ds), r')
      | _ => (some acc, l)
    match acc1 with
    | none => none
    | some acc' =>
      match r1 with
      | e :: r =>
        if e = 'e' ∨ e = 'E' then
          let (sgn, r2) :=
            match r with
            | '+' :: r' => (['+'], r')
            | '-' :: r' => (['-'], r')
            | _ => (([] : List Char), r)
          match takeDigits r2 with
          | ([], _) => none
          | (ds, r3) => some (acc' ++ e :: (sgn ++ ds), r3)
        else some (acc', r1)
      | [] => some (acc', r1)

mutual

/-- Recursive-descent JSON value parse (fuel-indexed). -/
def parseVal : Nat → List Char → Option (JsValue × List Char)
  | 0, _ => none
  | fuel + 1, l =>
    match skipWs l with
    | [] => none
    | c :: rest =>
      if c = 'n' then
        if ['u', 'l', 'l'].isPrefixOf rest then
          some (JsValue.null, rest.drop 3)
        else none
      else if c = 't' then
        if ['r', 'u', 'e'].isPrefixOf rest then
          some (JsValue.bool true, rest.drop 3)
        else none
      else if c = 'f' then
        if ['a', 'l', 's', 'e'].isPrefixOf rest then
          some (JsValue.bool false, rest.drop 4)
        else none
      else if c = '"' then
        match parseStrBody rest with
        | some (s, rem) => some (JsValue.str s, rem)
        | none => none
      else if c = '-' ∨ c.isDigit then
        match parseNum (c :: rest) with
        | some (lex, rem) => some (JsValue.num lex, rem)
        | none => none
      else if c = '[' then
        match skipWs rest with
        | ']' :: rem => some (JsValue.arr [], rem)
        | _ =>
          match parseElems fuel rest with
          | some (xs, rem) => some (JsValue.arr xs, rem)
          | none => none
      else if c = lbrace then
        match skipWs rest with
        | c' :: rem =>
          if c' = rbrace then some (JsValue.obj [], rem)
          else
            match parseMembers fuel rest with
            | some (fs, rem') => some (JsValue.obj fs, rem')
            | none => none
        | [] => none
      else none

/-- One-or-more comma-separated array elements, then `]`. -/
def parseElems : Nat → List Char → Option (List JsValue × List Char)
  | 0, _ => none
  | fuel + 1, l =>
    match parseVal fuel l with
    | none => none
    | some (v, rem) =>
      match skipWs rem with
      | ',' :: rem2 =>
        match parseElems fuel rem2 with
        | some (xs, rem3) => some (v :: xs, rem3)
        | none => none
      | ']' :: rem2 => some ([v], rem2)
      | _ => none

/-- One-or-more comma-separated object members, then the closing brace. -/
def parseMembers : Nat → List Char → Option (List (List Char × JsValue) × List Char)
  | 0, _ => none
  | fuel + 1, l =>
    match skipWs l with
    | '"' :: rest =>
      match parseStrBody rest with
      | none => none
      | some (k, rem) =>
        match skipWs rem with
        | ':' :: rem2 =>
          match parseVal fuel rem2 with
          | none => none
          | some (v, rem3) =>
            match skipWs rem3 with
            | ',' :: rem4 =>
              match parseMembers fuel rem4 with
              | some (fs, rem5) => some ((k, v) :: fs, rem5)
              | none => none
            | c :: rem4 =>
              if c = rbrace then some ([(k, v)], rem4) else none
            | [] => none
        | _ => none
    | _ => none

end

/-- `JSON.parse`: parse one value, then require only trailing
whitespace.  `none` models a thrown `SyntaxError`. -/
def jsonParse (l : List Char) : Option JsValue :=
  match parseVal (2 * l.length + 2) l with
  | some (v, rem) => if skipWs rem = [] then some v else none
  | none => none

/-! ## JavaScript runtime operations -/

/-- Whether a number lexeme denotes zero: the mantissa (the part before
any exponent marker) contains no nonzero digit. -/
def numIsZero (lex : List Char) : Bool :=
  (lex.takeWhile (fun c => c ≠ 'e' ∧ c ≠ 'E')).all
    (fun c => !c.isDigit || c = '0')

/-- JavaScript truthiness of a parsed JSON value: `null`, `false`, a
zero number and the empty string are falsy; arrays and objects are
always truthy. -/
def jsTruthy : JsValue → Bool
  | .null => false
  | .bool b => b
  | .num lex => !numIsZero lex
  | .str s => !s.isEmpty
  | .arr _ => true
  | .obj _ => true

mutual

/-- JavaScript `String(·)` coercion of a parsed JSON value.  (For a
number the lexeme is returned; JavaScript reformats the parsed double,
which agrees on canonical lexemes — no theorem below evaluates this
case.) -/
def jsString : JsValue → List Char
  | .null => "null".toList
  | .bool true => "true".toList
  | .bool false => "false".toList
  | .num lex => lex
  | .str s => s
  | .arr xs => jsStringElems xs
  | .obj _ => "[object Object]".toList

/-- `Array.prototype.join(",")` as used by `String(array)`:
`null` elements become empty strings. -/
def jsStringElems : List JsValue → List Char
  | [] => []
  | [x] => (match x with | .null => [] | v => jsString v)
  | x :: y :: rest =>
    (match x with | .null => [] | v => jsString v) ++
      ',' :: jsStringElems (y :: rest)

end

/-- Last binding of key `k` in an object's field list (later duplicate
keys overwrite earlier ones in `JSON.parse`). -/
def lookupLast (fs : List (List Char × JsValue)) (k : List Char) :
    Option JsValue :=
  ((fs.filter (fun p => p.1 == k)).getLast?).map (·.2)

/-- JavaScript property access `v[k]`: a `TypeError` (modelled as
`Except.error`) on `null`; the field (or `undefined`, modelled as
`none`) on an object; `undefined` on any other primitive or array. -/
def jsGetProp (v : JsValue) (k : List Char) : Except Unit (Option JsValue) :=
  match v with
  | .null => .error ()
  | .obj fs => .ok (lookupLast fs k)
  | _ => .ok none

/-! ## Canonical result types -/

/-- One alternative rewrite in the success payload. -/
structure Alternative where
  label : List Char
  text : List Char
deriving DecidableEq

/-- Response payload of the Supabase `ai-edit` handler. -/
inductive RespBody where
  /-- A hard error `\x7b error: msg \x7d`. -/
  | errMsg (msg : List Char) : RespBody
  /-- Degraded 200: `\x7b error: "parse_failed", raw \x7d`. -/
  | parseFailed (raw : List Char) : RespBody
  /-- Degraded 200: `\x7b error: "bad_schema" \x7d`. -/
  | badSchema : RespBody
  /-- Degraded 200: `\x7b error: "empty_alternatives" \x7d`. -/
  | emptyAlternatives : RespBody
  /-- Success: `\x7b alternatives \x7d`. -/
  | success (alts : List Alternative) : RespBody
  /-- The last-resort catch's `\x7b error: String(err) \x7d` body. -/
  | internalError : RespBody
deriving DecidableEq

/-- An HTTP response of the handler. -/
structure HttpResponse where
  status : Nat
  body : RespBody
deriving DecidableEq

/-- Why `parseAlternatives` threw. -/
inductive ParseErr where
  /-- `throw new Error("No JSON object found in model response")`. -/
  | noJson : ParseErr
  /-- `JSON.parse` threw a `SyntaxError`. -/
  | badJson : ParseErr
deriving DecidableEq

/-! ## Supabase variant: `src/supabase/functions/ai-edit/index.ts` -/

/-- `parseAlternatives` (index.ts lines 165-177): strip fences, locate
the first `\x7b` and last `\x7d`, slice inclusively and `JSON.parse`
the slice. -/
def parseAlternativesFn (raw : List Char) : Except ParseErr JsValue :=
  let clean := cleanRaw raw
  match idxOf lbrace clean, lastIdxOf rbrace clean with
  | some s, some e =>
    match jsonParse (sliceL clean s (e + 1)) with
    | some v => .ok v
    | none => .error .badJson
  | some _, none => .error .noJson
  | none, _ => .error .noJson

/-- The positional placeholder label `Option (i+1)`. -/
def optionLabel (i : Nat) : List Char :=
  "Option ".toList ++ (Nat.repr (i + 1)).toList

/-- The callback of the normalise `.map` (index.ts lines 320-323):
`label: String(alt.label ?? \x60Option (i+1)\x60), text: String(alt.text ?? "")`.
Property access on a `null` entry throws; `??` replaces only
`null`/`undefined`. -/
def normEntry (i : Nat) (alt : JsValue) : Except Unit Alternative := do
  let lab ← jsGetProp alt "label".toList
  let tex ← jsGetProp alt "text".toList
  let l : List Char :=
    match lab with
    | none => optionLabel i
    | some .null => optionLabel i
    | some v => jsString v
  let t : List Char :=
    match tex with
    | none => []
    | some .null => []
    | some v => jsString v
  .ok ⟨l, t⟩

/-- `parsed.alternatives.map(normEntry)` with the element's array
index, propagating a thrown exception. -/
def normMap : Nat → List JsValue → Except Unit (List Alternative)
  | _, [] => .ok []
  | i, alt :: rest => do
    let a ← normEntry i alt
    let tail ← normMap (i + 1) rest
    .ok (a :: tail)

/-- The `.filter` of the normalise step (index.ts line 324): keep
entries whose trimmed text is non-empty. -/
def normFilter (alts : List Alternative) : List Alternative :=
  alts.filter (fun a => (trimL a.text).length > 0)

/-- The whole normalise-and-filter step. -/
def normalizeAlts (xs : List JsValue) : Except Unit (List Alternative) :=
  (normMap 0 xs).map normFilter

/-- Response recovery of the Supabase handler after a successful
generation call (index.ts lines 305-330): parse, schema-check,
normalise, filter, classify.  `Except.error` models an exception
reaching the handler's last-resort catch.

The source's schema test is
`!parsed.alternatives || !Array.isArray(parsed.alternatives)`;
since an array is always truthy, it holds exactly when the field is
not an array, which the match below mirrors. -/
def recoverStage (raw : List Char) : Except Unit HttpResponse :=
  match parseAlternativesFn raw with
  | .error _ => .ok ⟨200, .parseFailed raw⟩
  | .ok parsed => do
    let altv ← jsGetProp parsed "alternatives".toList
    match altv with
    | some (.arr xs) => do
      let alts ← normalizeAlts xs
      if alts.length = 0 then pure ⟨200, .emptyAlternatives⟩
      else pure ⟨200, .success alts⟩
    | _ => pure ⟨200, .badSchema⟩

/-- Response recovery including the handler's last-resort catch
(index.ts lines 332-340): an escaping exception becomes a 500. -/
def recoverSupabase (raw : List Char) : HttpResponse :=
  match recoverStage raw with
  | .ok r => r
  | .error _ => ⟨500, .internalError⟩

/-! ## Vercel edge variant: `src/api/ai-edit.js`

This near-duplicate differs where it matters for the claims below: its
`parseAlternatives` also schema-checks inside the `try` (so a missing
`alternatives` array surfaces as `parse_failed`), its normalise step
uses `||` instead of `??` and no `String(·)` coercion, an empty
filtered list is reported as `bad_schema`, and the handler has no
last-resort catch, so an exception from the normalise step escapes. -/

/-- Response payload of the `src/api/ai-edit.js` handler.  Its success
path serialises the mutated `result` object; only the alternatives
list (label/text pairs, still raw JSON values) is modelled. -/
inductive ApiBody where
  | errMsg (msg : List Char) : ApiBody
  | parseFailed (raw : List Char) : ApiBody
  | badSchema : ApiBody
  | success (alts : List (JsValue × JsValue)) : ApiBody

/-- `parseAlternatives` of `src/api/ai-edit.js` (lines 170-186): same
clean/slice/parse, then `throw new Error("Missing alternatives array")`
unless `parsed.alternatives` is an array.  Returns the parsed value
with its alternatives. -/
def parseAltsApi (raw : List Char) : Except Unit (JsValue × List JsValue) :=
  match parseAlternativesFn raw with
  | .error _ => .error ()
  | .ok parsed =>
    match jsGetProp parsed "alternatives".toList with
    | .error _ => .error ()
    | .ok (some (.arr xs)) => .ok (parsed, xs)
    | .ok _ => .error ()

/-- The `.map` callback of `src/api/ai-edit.js` (lines 293-296):
`label: alt.label || \x60Option (i+1)\x60, text: alt.text || ""` — `||`
replaces every falsy value, and no string coercion is applied. -/
def apiNormEntry (i : Nat) (alt : JsValue) : Except Unit (JsValue × JsValue) := do
  let lab ← jsGetProp alt "label".toList
  let tex ← jsGetProp alt "text".toList
  let l : JsValue :=
    match lab with
    | some v => if jsTruthy v then v else .str (optionLabel i)
    | none => .str (optionLabel i)
  let t : JsValue :=
    match tex with
    | some v => if jsTruthy v then v else .str []
    | none => .str []
  .ok (l, t)

/-- `result.alternatives.map(apiNormEntry)` with the element's index. -/
def apiNormMap : Nat → List JsValue → Except Unit (List (JsValue × JsValue))
  | _, [] => .ok []
  | i, alt :: rest => do
    let a ← apiNormEntry i alt
    let tail ← apiNormMap (i + 1) rest
    .ok (a :: tail)

/-- The `.filter(alt => alt.text.trim())` of `src/api/ai-edit.js`
(line 296): calling `.trim()` on a non-string text value throws a
`TypeError`. -/
def apiFilter : List (JsValue × JsValue) → Except Unit (List (JsValue × JsValue))
  | [] => .ok []
  | (l, t) :: rest =>
    match t with
    | .str s => do
      let r ← apiFilter rest
      .ok (if (trimL s).length > 0 then (l, .str s) :: r else r)
    | _ => .error ()

/-- Post-generation stage of the `src/api/ai-edit.js` handler
(lines 281-308).  There is no enclosing catch: `Except.error` models
an exception escaping the handler. -/
def apiRecoverStage (raw : List Char) : Except Unit (Nat × ApiBody) :=
  match parseAltsApi raw with
  | .error _ => .ok (200, .parseFailed raw)
  | .ok (_, xs) => do
    let mapped ← apiNormMap 0 xs
    let alts ← apiFilter mapped
    if alts.length = 0 then pure (200, .badSchema)
    else pure (200, .success alts)

/-! ## Full Supabase handler: prompts, temperature, validation -/

/-- The 3-alternatives JSON schema hint (index.ts lines 45-48). -/
def SCHEMA_3 : List Char :=
  ("Return ONLY valid JSON — no prose, no markdown fences.\n" ++
   "Schema (exactly 3 alternatives):\n" ++
   "\x7b\"alternatives\":[\x7b\"label\":\"Option 1\",\"text\":\"...\"\x7d," ++
   "\x7b\"label\":\"Option 2\",\"text\":\"...\"\x7d," ++
   "\x7b\"label\":\"Option 3\",\"text\":\"...\"\x7d]\x7d").toList

/-- The 2-alternatives JSON schema hint (index.ts lines 50-53). -/
def SCHEMA_2 : List Char :=
  ("Return ONLY valid JSON — no prose, no markdown fences.\n" ++
   "Schema (exactly 2 alternatives):\n" ++
   "\x7b\"alternatives\":[\x7b\"label\":\"Option 1\",\"text\":\"...\"\x7d," ++
   "\x7b\"label\":\"Option 2\",\"text\":\"...\"\x7d]\x7d").toList

/-- The base system prompt (index.ts lines 56-65). -/
def BASE_SYSTEM : List Char :=
  ("You are a world-class editor inside a writing app.\n" ++
   "You will receive: note title, full note text, the exact selected text, and surrounding context.\n" ++
   "Your job: produce alternative rewrites of ONLY the selected text.\n" ++
   "Rules:\n" ++
   "• Do NOT edit anything outside the selection.\n" ++
   "• Keep consistent with the note\x27s voice, terminology, and style.\n" ++
   "• Do NOT introduce new facts not already present in the note or selection.\n" ++
   "• Keep the same language as the selection (unless the action explicitly changes tone/style).\n" ++
   "• Keep roughly the same length unless the action calls for expansion or condensation.").toList

/-- The action → instruction record (index.ts lines 68-96).  `tone` is
deliberately absent: it is handled specially in `buildSystemPrompt`. -/
def ACTION_INSTRUCTIONS : List (List Char × List Char) :=
  [ ("rewrite".toList,
     ("ACTION — Rewrite: improve flow and readability. Keep meaning identical.\n").toList ++ SCHEMA_3),
    ("shorter".toList,
     ("ACTION — Shorter: condense the selection, remove redundancy, preserve core meaning. " ++
      "Trim without losing essential information.\n").toList ++ SCHEMA_3),
    ("clearer".toList,
     ("ACTION — Clearer: simplify sentence structure, reduce jargon, improve comprehension. " ++
      "Do not change meaning.\n").toList ++ SCHEMA_3),
    ("fix".toList,
     ("ACTION — Fix: correct grammar, spelling, and punctuation. " ++
      "Option 1 = minimal fix (change as little as possible). " ++
      "Options 2–3 = slightly more polished but still fully faithful to original.\n").toList ++ SCHEMA_3),
    ("expand".toList,
     ("ACTION — Expand: elaborate slightly using ONLY ideas already present in the selection " ++
      "or note. Do NOT introduce new facts or examples not in the note.\n").toList ++ SCHEMA_2),
    ("bullets".toList,
     ("ACTION — Bullets: convert the selection to a bullet list using \"• \" prefix for each " ++
      "item. Preserve ALL content — just restructure.\n").toList ++ SCHEMA_2),
    ("example".toList,
     ("ACTION — Example: add a short, generic illustrative example that does NOT introduce " ++
      "unverifiable facts. If that is impossible, improve clarity instead.\n").toList ++ SCHEMA_3) ]

/-- Record lookup `ACTION_INSTRUCTIONS[action]`. -/
def lookupInstr (action : List Char) : Option (List Char) :=
  (ACTION_INSTRUCTIONS.filter (fun p => p.1 == action)).head?.map (·.2)

/-- `buildSystemPrompt` (index.ts lines 99-110).  The tone is the raw
request value (`string | null` in the source's cast). -/
def buildSystemPrompt (action : List Char) (tone : JsValue) : List Char :=
  if action = "tone".toList ∧ jsTruthy tone then
    BASE_SYSTEM ++
      "\n\nACTION — Tone (".toList ++ jsString tone ++
      "): rewrite to match this tone: ".toList ++ jsString tone ++
      ". Keep meaning identical. Do not add new facts.\n".toList ++ SCHEMA_3
  else
    let instruction := (lookupInstr action).getD ((lookupInstr "rewrite".toList).getD [])
    BASE_SYSTEM ++ "\n\n".toList ++ instruction

/-- Parameters of `buildUserMessage` (index.ts lines 112-120). -/
structure MsgParams where
  noteTitle : List Char
  noteContent : List Char
  selectedText : List Char
  before : List Char
  after : List Char
  action : List Char
  tone : JsValue

/-- Join lines with `\n`, as `Array.prototype.join("\n")`. -/
def joinNl : List (List Char) → List Char
  | [] => []
  | [x] => x
  | x :: y :: rest => x ++ '\n' :: joinNl (y :: rest)

/-- JavaScript `a || b` on strings: `b` when `a` is empty. -/
def orDefault (a b : List Char) : List Char := if a.isEmpty then b else a

/-- `buildUserMessage` (index.ts lines 112-140). -/
def buildUserMessage (p : MsgParams) : List Char :=
  joinNl
    [ "TITLE:".toList,
      orDefault p.noteTitle "(untitled)".toList,
      [],
      "FULL NOTE:".toList,
      orDefault p.noteContent "(empty)".toList,
      [],
      "SELECTION:".toList,
      p.selectedText,
      [],
      "SURROUNDING CONTEXT:".toList,
      "BEFORE:".toList,
      orDefault p.before "(start of note)".toList,
      "AFTER:".toList,
      orDefault p.after "(end of note)".toList,
      [],
      "ACTION:".toList,
      p.action ++
        (if jsTruthy p.tone then
          " (tone: ".toList ++ jsString p.tone ++ ")".toList
        else []) ]

/-- `getTemperature` (index.ts lines 142-146), the sampling
temperature submitted to the generator, as an exact rational. -/
def getTemperature (action : List Char) : ℚ :=
  if action = "tone".toList ∨ action = "rewrite".toList ∨
      action = "example".toList then 0.3
  else 0.2

/-- The valid-action whitelist (index.ts lines 242-245). -/
def validActions : List (List Char) :=
  [ "rewrite".toList, "shorter".toList, "clearer".toList, "fix".toList,
    "tone".toList, "expand".toList, "bullets".toList, "example".toList ]

/-- Property access on a non-null destructured body (the handler
destructures `body`; on a non-null value each field read is plain
property access, which never throws). -/
def fieldOf (body : JsValue) (k : List Char) : Option JsValue :=
  match body with
  | .obj fs => lookupLast fs k
  | _ => none

/-- A request that passed the validation section. -/
structure ValidatedReq where
  action : List Char
  tone : JsValue
  noteTitle : JsValue
  noteContent : JsValue
  selectedTrimmed : List Char
  before : JsValue
  after : JsValue

/-- `String(selectedText ?? "")`: the coerced selection before
trimming (`??` replaces only `null`/`undefined`). -/
def selectedRaw (body : JsValue) : List Char :=
  match fieldOf body "selectedText".toList with
  | none => []
  | some .null => []
  | some v => jsString v

/-- The validation section of the handler (index.ts lines 212-254):
destructured fields with their defaults, then the four checks in
source order.  `Sum.inl` is an early 4xx response. -/
def validateReq (body : JsValue) : Sum HttpResponse ValidatedReq :=
  let action? := fieldOf body "action".toList
  let tone : JsValue := (fieldOf body "tone".toList).getD .null
  let noteTitle : JsValue := (fieldOf body "noteTitle".toList).getD (.str [])
  let noteContent : JsValue := (fieldOf body "noteContent".toList).getD (.str [])
  let before : JsValue := (fieldOf body "before".toList).getD (.str [])
  let after : JsValue := (fieldOf body "after".toList).getD (.str [])
  -- `if (!action || typeof action !== "string")`
  match action? with
  | some (.str s) =>
    if s.isEmpty then .inl ⟨400, .errMsg "Missing or invalid \"action\"".toList⟩
    else
      -- `String(selectedText ?? "").trim()`
      let selectedTrimmed := trimL (selectedRaw body)
      if selectedTrimmed.isEmpty then
        .inl ⟨400, .errMsg "Missing or empty \"selectedText\"".toList⟩
      else if ¬ (validActions.contains s) then
        .inl ⟨400, .errMsg ("Unknown action: ".toList ++ s)⟩
      else if s = "tone".toList ∧ ¬ jsTruthy tone then
        .inl ⟨400, .errMsg "\"tone\" value is required when action is \"tone\"".toList⟩
      else .inr ⟨s, tone, noteTitle, noteContent, selectedTrimmed, before, after⟩
  | _ => .inl ⟨400, .errMsg "Missing or invalid \"action\"".toList⟩

/-- The prompt-compilation section (index.ts lines 257-266): build the
system prompt and the user message from a validated request. -/
def compilePrompts (vr : ValidatedReq) : List Char × List Char :=
  (buildSystemPrompt vr.action vr.tone,
   buildUserMessage
     { noteTitle := if jsTruthy vr.noteTitle then jsString vr.noteTitle else []
       noteContent := if jsTruthy vr.noteContent then jsString vr.noteContent else []
       selectedText := vr.selectedTrimmed
       before := if jsTruthy vr.before then jsString vr.before else []
       after := if jsTruthy vr.after then jsString vr.after else []
       action := vr.action
       tone := vr.tone })

/-- Ambient nondeterminism available to the edge runtime (clock,
random source).  The compilation code reads neither. -/
structure World where
  now : Nat
  seed : Nat

/-- Prompt compilation as run in a given world: the source calls
neither `Date.now()` nor `Math.random()`, so the world is unread. -/
def compilePromptsAt (_w : World) (vr : ValidatedReq) : List Char × List Char :=
  compilePrompts vr

/-- Outcome of the single generation round trip (opaque capability:
the Anthropic envelope's extracted text is the `ok` payload). -/
inductive GenOutcome where
  | networkError : GenOutcome
  | httpError (status : Nat) : GenOutcome
  | ok (raw : List Char) : GenOutcome

/-- The external generator as an oracle: it receives the compiled
system prompt, the user message and the sampling temperature, and
produces the round-trip outcome. -/
def Generator : Type := List Char → List Char → ℚ → GenOutcome

/-- The handler's try-block (index.ts lines 191-331) for a POST
request: credential check, body parse, destructure (throws on a null
body), validation, prompt compilation, generation, recovery.
`body? = none` models a request whose JSON body failed to parse.
`Except.error` is an exception reaching the last-resort catch. -/
def handlerMain (hasApiKey : Bool) (body? : Option JsValue)
    (gen : Generator) : Except Unit HttpResponse :=
  if ¬ hasApiKey then .ok ⟨500, .errMsg "API key not configured".toList⟩
  else
    match body? with
    | none => .ok ⟨400, .errMsg "Invalid JSON body".toList⟩
    | some .null => .error ()
    | some body =>
      match validateReq body with
      | .inl resp => .ok resp
      | .inr vr =>
        let (systemPrompt, userMessage) := compilePrompts vr
        match gen systemPrompt userMessage (getTemperature vr.action) with
        | .networkError => .ok ⟨502, .errMsg "Network error reaching AI".toList⟩
        | .httpError st =>
          .ok ⟨502, .errMsg ("AI API error: ".toList ++ (Nat.repr st).toList)⟩
        | .ok raw => recoverStage raw

/-- The full handler including the last-resort catch. -/
def handleAiEdit (hasApiKey : Bool) (body? : Option JsValue)
    (gen : Generator) : HttpResponse :=
  match handlerMain hasApiKey body? gen with
  | .ok r => r
  | .error _ => ⟨500, .internalError⟩

/-- The creative actions of the sampling-temperature policy. -/
def creativeActions : List (List Char) :=
  [ "tone".toList, "rewrite".toList, "example".toList ]

/-- The corrective actions of the sampling-temperature policy. -/
def correctiveActions : List (List Char) :=
  [ "shorter".toList, "clearer".toList, "fix".toList,
    "expand".toList, "bullets".toList ]

/-! ## Supporting lemmas -/

/-- The backtick character (code point 96). -/
def backtick : Char := Char.ofNat 96

lemma trimL_eq_rdropWhile (l : List Char) :
    trimL l = List.rdropWhile isJsWhite (l.dropWhile isJsWhite) := rfl

lemma dropWhile_trimL_self (l : List Char) :
    (trimL l).dropWhile isJsWhite = trimL l := by
  rw [trimL_eq_rdropWhile]
  have hdm : (l.dropWhile isJsWhite).dropWhile isJsWhite = l.dropWhile isJsWhite :=
    List.dropWhile_idempotent _ _
  rcases heq : List.rdropWhile isJsWhite (l.dropWhile isJsWhite) with _ | ⟨c, t⟩
  · simp
  · have hpre : List.rdropWhile isJsWhite (l.dropWhile isJsWhite) <+:
        l.dropWhile isJsWhite := List.rdropWhile_prefix _ _
    rw [heq] at hpre
    obtain ⟨rest, hrest⟩ := hpre
    have hc : ¬ isJsWhite c = true := by
      intro hpc
      rw [← hrest, List.cons_append, List.dropWhile_cons, if_pos hpc] at hdm
      have hle : (List.dropWhile isJsWhite (t ++ rest)).length ≤ (t ++ rest).length :=
        (List.dropWhile_sublist isJsWhite).length_le
      have hlen := congrArg List.length hdm
      simp only [List.length_cons] at hlen
      omega
    simp [List.dropWhile_cons, hc]

lemma trimL_idem (l : List Char) : trimL (trimL l) = trimL l := by
  conv_lhs => rw [trimL_eq_rdropWhile (trimL l)]
  rw [dropWhile_trimL_self, trimL_eq_rdropWhile, List.rdropWhile_idempotent]

lemma mem_of_mem_trimL {c : Char} {l : List Char} (h : c ∈ trimL l) : c ∈ l := by
  rw [trimL_eq_rdropWhile] at h
  have h1 := (List.rdropWhile_prefix isJsWhite (l.dropWhile isJsWhite)).sublist.subset h
  exact (List.dropWhile_sublist isJsWhite).subset h1

lemma fenceTok_eq : fenceTok = backtick :: backtick :: backtick :: [] := rfl

lemma fenceJsonTok_eq :
    fenceJsonTok = backtick :: backtick :: backtick :: 'j' :: 's' :: 'o' :: 'n' :: [] := rfl

lemma fence_not_prefix_cons {c : Char} (l : List Char) (hc : c ≠ backtick) :
    fenceTok.isPrefixOf (c :: l) = false := by
  rw [fenceTok_eq]
  simp [List.isPrefixOf]
  intro h
  exact absurd h.symm hc

lemma fenceJson_not_prefix_cons {c : Char} (l : List Char) (hc : c ≠ backtick) :
    fenceJsonTok.isPrefixOf (c :: l) = false := by
  rw [fenceJsonTok_eq]
  simp [List.isPrefixOf]
  intro h
  exact absurd h.symm hc

lemma splitAtTok_fence_append (inner : List Char)
    (h : ∀ c ∈ inner, c ≠ backtick) :
    splitAtTok fenceTok (inner ++ fenceTok) = some (inner, []) := by
  induction inner with
  | nil => rfl
  | cons c rest ih =>
    have hc : c ≠ backtick := h c (List.mem_cons_self _ _)
    rw [List.cons_append]
    unfold splitAtTok
    rw [if_neg (by rw [fence_not_prefix_cons _ hc]; exact Bool.false_ne_true)]
    rw [ih (fun x hx => h x (List.mem_cons_of_mem _ hx))]

lemma removeFenceMarksJson_nil (fuel : Nat) : removeFenceMarksJson fuel [] = [] := by
  cases fuel <;> rfl

lemma removeFenceMarksJson_inner (inner : List Char) :
    ∀ fuel, (∀ c ∈ inner, c ≠ backtick) → inner.length + 1 ≤ fuel →
    removeFenceMarksJson fuel (inner ++ fenceTok) = inner := by
  induction inner with
  | nil =>
    intro fuel _ hf
    cases fuel with
    | zero => omega
    | succ f =>
      show removeFenceMarksJson (f + 1) fenceTok = []
      unfold removeFenceMarksJson
      rw [fenceTok_eq]
      simp [List.isPrefixOf, removeFenceMarksJson_nil]
  | cons c rest ih =>
    intro fuel h hf
    cases fuel with
    | zero => omega
    | succ f =>
      have hc : c ≠ backtick := h c (List.mem_cons_self _ _)
      rw [List.cons_append]
      simp only [removeFenceMarksJson]
      rw [fenceJson_not_prefix_cons _ hc, fence_not_prefix_cons _ hc]
      simp only [Bool.false_eq_true, if_false]
      rw [ih f (fun x hx => h x (List.mem_cons_of_mem _ hx)) (by simp at hf ⊢; omega)]

lemma removeFenceMarksJson_full (inner : List Char) (fuel : Nat)
    (h : ∀ c ∈ inner, c ≠ backtick) (hf : inner.length + 2 ≤ fuel) :
    removeFenceMarksJson fuel (fenceJsonTok ++ inner ++ fenceTok) = inner := by
  cases fuel with
  | zero => omega
  | succ f =>
    have hsh : fenceJsonTok ++ inner ++ fenceTok =
        backtick :: ((backtick :: backtick :: 'j' :: 's' :: 'o' :: 'n' :: []) ++
          inner ++ fenceTok) := by
      rw [fenceJsonTok_eq]; rfl
    rw [hsh]
    simp only [removeFenceMarksJson]
    rw [if_pos (by
      rw [fenceJsonTok_eq]
      simp [List.isPrefixOf])]
    rw [show List.drop fenceJsonTok.length
          (backtick :: ((backtick :: backtick :: 'j' :: 's' :: 'o' :: 'n' :: []) ++
            inner ++ fenceTok)) = inner ++ fenceTok from by
      rw [fenceJsonTok_eq]; rfl]
    exact removeFenceMarksJson_inner inner f h (by omega)

lemma replaceLazyFenced_nil (openTok : List Char) (g : List Char → List Char)
    (fuel : Nat) : replaceLazyFenced openTok g fuel [] = [] := by
  cases fuel <;> rfl

lemma replaceLazyFenced_id (openTok : List Char) (g : List Char → List Char)
    (o : List Char) (ho : openTok = backtick :: o) (l : List Char) :
    ∀ fuel, (∀ c ∈ l, c ≠ backtick) → replaceLazyFenced openTok g fuel l = l := by
  induction l with
  | nil => intro fuel _; exact replaceLazyFenced_nil _ _ _
  | cons c rest ih =>
    intro fuel h
    cases fuel with
    | zero => rfl
    | succ f =>
      have hc : c ≠ backtick := h c (List.mem_cons_self _ _)
      have hnp : openTok.isPrefixOf (c :: rest) = false := by
        rw [ho]
        simp [List.isPrefixOf]
        intro heq
        exact absurd heq.symm hc
      simp only [replaceLazyFenced]
      rw [hnp]
      simp only [Bool.false_eq_true, if_false]
      rw [ih f (fun x hx => h x (List.mem_cons_of_mem _ hx))]

lemma replaceLazyFenced_wrap (inner : List Char) (g : List Char → List Char)
    (fuel : Nat) (h : ∀ c ∈ inner, c ≠ backtick) (hf : fuel ≠ 0) :
    replaceLazyFenced fenceJsonTok g fuel (fenceJsonTok ++ inner ++ fenceTok) =
      g (fenceJsonTok ++ inner ++ fenceTok) := by
  cases fuel with
  | zero => exact absurd rfl hf
  | succ f =>
    have hsh : fenceJsonTok ++ inner ++ fenceTok =
        backtick :: ((backtick :: backtick :: 'j' :: 's' :: 'o' :: 'n' :: []) ++
          inner ++ fenceTok) := by
      rw [fenceJsonTok_eq]; rfl
    rw [hsh]
    simp only [replaceLazyFenced]
    rw [if_pos (by
      rw [fenceJsonTok_eq]
      simp [List.isPrefixOf])]
    rw [show List.drop fenceJsonTok.length
          (backtick :: ((backtick :: backtick :: 'j' :: 's' :: 'o' :: 'n' :: []) ++
            inner ++ fenceTok)) = inner ++ fenceTok from by
      rw [fenceJsonTok_eq]; rfl]
    rw [splitAtTok_fence_append inner h]
    simp only [replaceLazyFenced_nil, List.append_nil]
    exact congrArg g hsh.symm

lemma idxOf_eq_none (c : Char) (l : List Char) (h : c ∉ l) : idxOf c l = none := by
  induction l with
  | nil => rfl
  | cons x rest ih =>
    unfold idxOf
    rw [if_neg (by rintro rfl; exact h (List.mem_cons_self _ _)),
        ih (fun hm => h (List.mem_cons_of_mem _ hm))]
    rfl

lemma parseAlternativesFn_noJson (raw : List Char)
    (h : lbrace ∉ cleanRaw raw ∨ rbrace ∉ cleanRaw raw) :
    parseAlternativesFn raw = .error .noJson := by
  simp only [parseAlternativesFn]
  cases h1 : idxOf lbrace (cleanRaw raw) with
  | none => simp [h1]
  | some s =>
    cases h2 : lastIdxOf rbrace (cleanRaw raw) with
    | none => simp [h1, h2]
    | some e =>
      exfalso
      rcases h with h | h
      · rw [idxOf_eq_none _ _ h] at h1; exact Option.noConfusion h1
      · have : idxOf rbrace (cleanRaw raw).reverse = none :=
          idxOf_eq_none _ _ (fun hm => h (List.mem_reverse.mp hm))
        unfold lastIdxOf at h2
        rw [this] at h2
        exact Option.noConfusion h2

lemma validateReq_inl_shape (body : JsValue) (r : HttpResponse)
    (h : validateReq body = .inl r) : ∃ msg, r = ⟨400, .errMsg msg⟩ := by
  simp only [validateReq] at h
  split at h
  · split_ifs at h <;>
      exact ⟨_, by injection h with h'; exact h'.symm⟩
  · exact ⟨_, by injection h with h'; exact h'.symm⟩

lemma validateReq_inr_spec (body : JsValue) (vr : ValidatedReq)
    (h : validateReq body = .inr vr) :
    ∃ s, fieldOf body "action".toList = some (.str s) ∧ ¬ s.isEmpty ∧
      ¬ (trimL (selectedRaw body)).isEmpty ∧
      validActions.contains s ∧
      ¬ (s = "tone".toList ∧
         ¬ jsTruthy ((fieldOf body "tone".toList).getD .null)) := by
  simp only [validateReq] at h
  split at h
  case _ s heq =>
    split_ifs at h with h1 h2 h3 h4
    exact ⟨s, heq, h1, h2, h3, h4⟩
  case _ heq => cases h

/-! ## Theorems -/

/-- C1: for every parsed value whose `alternatives` field is an array,
normalisation maps each entry (coercing label and text) and drops
every entry whose trimmed text is empty; zero survivors give the
`empty_alternatives` outcome with HTTP 200 (distinct by constructor
from `badSchema` and `parseFailed`), one or more survivors are all
returned as success — `expectedAlternativeCount` is never consulted.
In particular the raw text
`Sure! \x7b"alternatives":[\x7b"text":""\x7d]\x7d Hope that helps.`
yields the empty-result outcome. -/
theorem array_normalize_filter_policy :
    (∀ (raw : List Char) (parsed : JsValue) (xs : List JsValue)
        (mapped : List Alternative),
      parseAlternativesFn raw = .ok parsed →
      jsGetProp parsed "alternatives".toList = .ok (some (.arr xs)) →
      normMap 0 xs = .ok mapped →
      recoverSupabase raw =
        if (normFilter mapped).length = 0 then ⟨200, .emptyAlternatives⟩
        else ⟨200, .success (normFilter mapped)⟩) ∧
    recoverSupabase
        "Sure! \x7b\"alternatives\":[\x7b\"text\":\"\"\x7d]\x7d Hope that helps.".toList =
      ⟨200, .emptyAlternatives⟩ := by
  constructor
  · intro raw parsed xs mapped h1 h2 h3
    have hstage : recoverStage raw =
        .ok (if (normFilter mapped).length = 0 then ⟨200, .emptyAlternatives⟩
             else ⟨200, .success (normFilter mapped)⟩) := by
      unfold recoverStage
      rw [h1]
      simp only [bind, Except.bind, h2, normalizeAlts, h3, Except.map, pure, Except.pure]
      split <;> rfl
    unfold recoverSupabase
    rw [hstage]
  · decide

/-- Witness for C1 at the spec's `Sure! ...` example. -/
theorem array_normalize_filter_policy_witness :
    parseAlternativesFn
        "Sure! \x7b\"alternatives\":[\x7b\"text\":\"\"\x7d]\x7d Hope that helps.".toList =
      .ok (.obj [("alternatives".toList, .arr [.obj [("text".toList, .str [])]])]) ∧
    jsGetProp (.obj [("alternatives".toList, .arr [.obj [("text".toList, .str [])]])])
        "alternatives".toList = .ok (some (.arr [.obj [("text".toList, .str [])]])) ∧
    normMap 0 [.obj [("text".toList, .str [])]] = .ok [⟨"Option 1".toList, []⟩] ∧
    recoverSupabase
        "Sure! \x7b\"alternatives\":[\x7b\"text\":\"\"\x7d]\x7d Hope that helps.".toList =
      (if (normFilter [⟨"Option 1".toList, ([] : List Char)⟩]).length = 0 then
        ⟨200, .emptyAlternatives⟩
      else ⟨200, .success (normFilter [⟨"Option 1".toList, ([] : List Char)⟩])⟩) :=
  ⟨rfl, rfl, rfl,
   array_normalize_filter_policy.1 _ _ _ _ rfl rfl rfl⟩

/-- C2: whenever the cleaned text contains no `\x7b` or no `\x7d`, the
recovery outcome is the parse-failure response carrying the original
raw text unmodified, with HTTP 200. -/
theorem missing_brace_is_parse_failure :
    ∀ raw : List Char,
      lbrace ∉ cleanRaw raw ∨ rbrace ∉ cleanRaw raw →
      recoverSupabase raw = ⟨200, .parseFailed raw⟩ := by
  intro raw h
  unfold recoverSupabase recoverStage
  rw [parseAlternativesFn_noJson raw h]

/-- Witness for C2 at the spec's brace-free example. -/
theorem missing_brace_is_parse_failure_witness :
    lbrace ∉ cleanRaw "I cannot help with that.".toList ∧
    recoverSupabase "I cannot help with that.".toList =
      ⟨200, .parseFailed "I cannot help with that.".toList⟩ :=
  ⟨by decide,
   missing_brace_is_parse_failure _ (Or.inl (by decide))⟩

/-- C3: a `json`-tagged fenced block is unwrapped, not deleted — for
any backtick-free inner content the cleaning step returns exactly the
trimmed inner content — and the raw text
`` ```json\n\x7b"alternatives":[\x7b"label":"Option 1","text":"Hi"\x7d]\x7d\n``` ``
recovers to success with the single alternative `Option 1` / `Hi`. -/
theorem fenced_json_block_unwraps :
    (∀ inner : List Char, (∀ c ∈ inner, c ≠ backtick) →
      cleanRaw (fenceJsonTok ++ inner ++ fenceTok) = trimL inner) ∧
    recoverSupabase
        "```json\n\x7b\"alternatives\":[\x7b\"label\":\"Option 1\",\"text\":\"Hi\"\x7d]\x7d\n```".toList =
      ⟨200, .success [⟨"Option 1".toList, "Hi".toList⟩]⟩ := by
  refine ⟨?_, by decide⟩
  intro inner h
  simp only [cleanRaw]
  rw [replaceLazyFenced_wrap inner _ _ h
    (by simp [fenceJsonTok_eq, fenceTok_eq])]
  rw [removeFenceMarksJson_full inner _ h
    (by simp [fenceJsonTok_eq, fenceTok_eq])]
  rw [replaceLazyFenced_id fenceTok _ (backtick :: backtick :: []) rfl _ _
    (fun c hc => fun hb => (h c (mem_of_mem_trimL hc)) hb)]
  exact trimL_idem inner

/-- Witness for C3 unwrapping a concrete backtick-free inner text. -/
theorem fenced_json_block_unwraps_witness :
    (∀ c ∈ "\n\x7b\"a\":1\x7d\n".toList, c ≠ backtick) ∧
    cleanRaw (fenceJsonTok ++ "\n\x7b\"a\":1\x7d\n".toList ++ fenceTok) =
      trimL "\n\x7b\"a\":1\x7d\n".toList :=
  ⟨by decide, fenced_json_block_unwraps.1 _ (by decide)⟩

/-- C4: in the normalise map, an entry whose `label` field is absent
receives the 1-indexed positional placeholder `Option N`, an entry
whose `label` is a present string keeps it verbatim, and the parsed
value `\x7b"alternatives":[\x7b"text":"A"\x7d,
\x7b"label":"Custom","text":"B"\x7d]\x7d` normalises to
`[Option 1 / A, Custom / B]`. -/
theorem omitted_labels_get_placeholders :
    (∀ (i : Nat) (fs : List (List Char × JsValue)),
        lookupLast fs "label".toList = none →
        (normEntry i (.obj fs)).map Alternative.label = .ok (optionLabel i)) ∧
    (∀ (i : Nat) (fs : List (List Char × JsValue)) (s : List Char),
        lookupLast fs "label".toList = some (.str s) →
        (normEntry i (.obj fs)).map Alternative.label = .ok s) ∧
    recoverSupabase
        "\x7b\"alternatives\":[\x7b\"text\":\"A\"\x7d,\x7b\"label\":\"Custom\",\"text\":\"B\"\x7d]\x7d".toList =
      ⟨200, .success [⟨"Option 1".toList, "A".toList⟩, ⟨"Custom".toList, "B".toList⟩]⟩ := by
  refine ⟨?_, ?_, by decide⟩
  · intro i fs h
    have h' : lookupLast fs ['l', 'a', 'b', 'e', 'l'] = none := h
    simp [normEntry, jsGetProp, h', bind, Except.bind, Except.map]
  · intro i fs s h
    have h' : lookupLast fs ['l', 'a', 'b', 'e', 'l'] = some (.str s) := h
    simp [normEntry, jsGetProp, h', bind, Except.bind, Except.map, jsString]

/-- Witness for C4 at an absent label (index 0) and a present label
(index 1). -/
theorem omitted_labels_get_placeholders_witness :
    lookupLast [("text".toList, JsValue.str "A".toList)] "label".toList = none ∧
    (normEntry 0 (.obj [("text".toList, JsValue.str "A".toList)])).map Alternative.label
      = .ok (optionLabel 0) ∧
    lookupLast [("label".toList, JsValue.str "Custom".toList)] "label".toList
      = some (.str "Custom".toList) ∧
    (normEntry 1 (.obj [("label".toList, JsValue.str "Custom".toList)])).map Alternative.label
      = .ok "Custom".toList :=
  ⟨rfl, omitted_labels_get_placeholders.1 0 _ rfl,
   rfl, omitted_labels_get_placeholders.2.1 1 _ _ rfl⟩

/-- C5: a request body (an object, per the inbound interface) with a
missing or non-string or empty action, an empty trimmed selection, an
action outside the whitelist, or `action = "tone"` with a falsy tone,
is answered 400 and the response does not depend on the generator —
no compiled prompt reaches it. -/
theorem invalid_request_rejected_before_generation :
    ∀ (fs : List (List Char × JsValue)),
      ((¬ ∃ s, fieldOf (.obj fs) "action".toList = some (.str s) ∧ s ≠ []) ∨
       trimL (selectedRaw (.obj fs)) = [] ∨
       (∃ s, fieldOf (.obj fs) "action".toList = some (.str s) ∧
         s ∉ validActions) ∨
       (fieldOf (.obj fs) "action".toList = some (.str "tone".toList) ∧
        ¬ jsTruthy ((fieldOf (.obj fs) "tone".toList).getD .null))) →
      ∃ msg, ∀ gen : Generator,
        handleAiEdit true (some (.obj fs)) gen = ⟨400, .errMsg msg⟩ := by
  intro fs hcond
  cases hv : validateReq (.obj fs) with
  | inl r =>
    obtain ⟨msg, rfl⟩ := validateReq_inl_shape _ _ hv
    refine ⟨msg, fun gen => ?_⟩
    unfold handleAiEdit handlerMain
    simp [hv]
  | inr vr =>
    exfalso
    obtain ⟨s, hs, hne, hsel, hmem, htone⟩ := validateReq_inr_spec _ _ hv
    rcases hcond with h | h | h | h
    · exact h ⟨s, hs, by simpa [List.isEmpty_iff] using hne⟩
    · rw [h] at hsel
      simp at hsel
    · obtain ⟨s', hs', hnot⟩ := h
      rw [hs] at hs'
      injection hs' with h'
      injection h' with h''
      subst h''
      exact hnot (List.mem_of_elem_eq_true hmem)
    · obtain ⟨hs', hto⟩ := h
      rw [hs] at hs'
      injection hs' with h'
      injection h' with h''
      exact htone ⟨h''.symm ▸ rfl, by simpa using hto⟩

/-- Witness for C5 at an unknown action `fly`. -/
theorem invalid_request_rejected_before_generation_witness :
    (∃ s, fieldOf
        (.obj [("action".toList, JsValue.str "fly".toList),
               ("selectedText".toList, JsValue.str "hello".toList)])
        "action".toList = some (.str s) ∧ s ∉ validActions) ∧
    (∃ msg, ∀ gen : Generator,
      handleAiEdit true
        (some (.obj [("action".toList, JsValue.str "fly".toList),
                     ("selectedText".toList, JsValue.str "hello".toList)])) gen =
      ⟨400, .errMsg msg⟩) :=
  ⟨⟨"fly".toList, rfl, by decide⟩,
   invalid_request_rejected_before_generation _
     (Or.inr (Or.inr (Or.inl ⟨"fly".toList, rfl, by decide⟩)))⟩

/-- C6: the sampling temperature of every creative action (`tone`,
`rewrite`, `example`) is strictly greater than that of every
corrective action (`shorter`, `clearer`, `fix`, `expand`,
`bullets`). -/
theorem creative_temperature_exceeds_corrective :
    ∀ c k, c ∈ creativeActions → k ∈ correctiveActions →
      getTemperature k < getTemperature c := by
  intro c k hc hk
  have hcv : getTemperature c = 0.3 := by
    fin_cases hc <;> (unfold getTemperature; rw [if_pos (by decide)])
  have hkv : getTemperature k = 0.2 := by
    fin_cases hk <;> (unfold getTemperature; rw [if_neg (by decide)])
  rw [hcv, hkv]
  norm_num

/-- Witness for C6 at `tone` versus `shorter`. -/
theorem creative_temperature_exceeds_corrective_witness :
    "tone".toList ∈ creativeActions ∧
    "shorter".toList ∈ correctiveActions ∧
    getTemperature "shorter".toList < getTemperature "tone".toList :=
  ⟨by decide, by decide,
   creative_temperature_exceeds_corrective _ _ (by decide) (by decide)⟩

/-- C7: prompt compilation is total (every stage is a Lean function
on validated requests) and an action identifier with no
`ACTION_INSTRUCTIONS` entry — unless it takes the special `tone`
branch — compiles to exactly what the `rewrite` template compiles
to. -/
theorem unknown_action_falls_back_to_rewrite :
    ∀ (a : List Char) (t : JsValue), lookupInstr a = none →
      ¬ (a = "tone".toList ∧ jsTruthy t) →
      buildSystemPrompt a t = buildSystemPrompt "rewrite".toList t := by
  intro a t h1 h2
  unfold buildSystemPrompt
  rw [if_neg h2, if_neg (fun h => absurd h.1 (by decide))]
  rw [h1]
  cases h : lookupInstr "rewrite".toList with
  | none => exact absurd h (by decide)
  | some v => simp [h]

/-- Witness for C7 at the unregistered action `improve`. -/
theorem unknown_action_falls_back_to_rewrite_witness :
    lookupInstr "improve".toList = none ∧
    ¬ ("improve".toList = "tone".toList ∧ jsTruthy .null) ∧
    buildSystemPrompt "improve".toList .null =
      buildSystemPrompt "rewrite".toList .null :=
  ⟨by decide, by decide,
   unknown_action_falls_back_to_rewrite _ _ (by decide) (by decide)⟩

/-- C8: prompt compilation is deterministic — run in any two worlds
(ambient clock and random seed), identical validated requests compile
to byte-identical system instructions and user messages, since the
source reads neither `Date.now()` nor `Math.random()`. -/
theorem compile_is_world_independent :
    ∀ (w₁ w₂ : World) (vr : ValidatedReq),
      compilePromptsAt w₁ vr = compilePromptsAt w₂ vr := by
  intro _ _ _
  rfl

/-- C9: the `Option N` placeholder index is the entry's position in
the parsed array before empty-text entries are dropped: the parsed
value `\x7b"alternatives":[\x7b"text":""\x7d,\x7b"text":"B"\x7d]\x7d`
succeeds with the single alternative `Option 2` / `B` and no
`Option 1`. -/
theorem placeholder_index_counts_prefilter_position :
    recoverSupabase
        "\x7b\"alternatives\":[\x7b\"text\":\"\"\x7d,\x7b\"text\":\"B\"\x7d]\x7d".toList =
      ⟨200, .success [⟨"Option 2".toList, "B".toList⟩]⟩ := by
  decide

/-- C10 counterexample: the number `5` is a non-object entry, yet
reading its `label` does not throw (property access on a non-null
primitive yields `undefined`), and the request produces a degraded
200 outcome in both variants: `empty_alternatives` in the Supabase
handler and `bad_schema` in `src/api/ai-edit.js`. -/
theorem nonnull_nonobject_entry_degrades_not_throws :
    recoverSupabase "\x7b\"alternatives\":[5]\x7d".toList =
      ⟨200, .emptyAlternatives⟩ ∧
    apiRecoverStage "\x7b\"alternatives\":[5]\x7d".toList =
      .ok (200, .badSchema) :=
  ⟨by decide, by rfl⟩

/-- C10 (amended): if `alternatives` is an array containing a `null`
entry, the normalise map throws while reading the entry's label (after
any null-free prefix), so no degraded 200 outcome is produced: the
Supabase handler's last-resort catch turns it into a 500, and in
`src/api/ai-edit.js` the exception escapes the handler uncaught. -/
theorem null_entry_escapes_recovery :
    (∀ (i : Nat) (pre post : List JsValue), (∀ v ∈ pre, v ≠ .null) →
        normMap i (pre ++ .null :: post) = .error ()) ∧
    recoverSupabase "\x7b\"alternatives\":[null]\x7d".toList =
      ⟨500, .internalError⟩ ∧
    apiRecoverStage "\x7b\"alternatives\":[null]\x7d".toList = .error () := by
  refine ⟨?_, by decide, by rfl⟩
  intro i pre post hpre
  induction pre generalizing i with
  | nil => rfl
  | cons a pre ih =>
    have ha : a ≠ .null := hpre a (List.mem_cons_self _ _)
    have hentry : ∃ alt, normEntry i a = .ok alt := by
      cases a with
      | null => exact absurd rfl ha
      | bool b => exact ⟨_, rfl⟩
      | num lex => exact ⟨_, rfl⟩
      | str s => exact ⟨_, rfl⟩
      | arr xs => exact ⟨_, rfl⟩
      | obj fsv => exact ⟨_, rfl⟩
    obtain ⟨alt, halt⟩ := hentry
    show normMap i ((a :: pre) ++ .null :: post) = .error ()
    rw [List.cons_append]
    simp only [normMap, halt, bind, Except.bind]
    rw [ih (i + 1) (fun v hv => hpre v (List.mem_cons_of_mem _ hv))]

/-- Witness for C10's amended statement at a null-free prefix of one
object entry. -/
theorem null_entry_escapes_recovery_witness :
    (∀ v ∈ [JsValue.obj []], v ≠ JsValue.null) ∧
    normMap 0 ([JsValue.obj []] ++ JsValue.null :: []) = .error () :=
  ⟨(by rintro v hv h; rw [List.mem_singleton] at hv; subst hv; cases h),
   null_entry_escapes_recovery.1 0 [JsValue.obj []] []
     (by rintro v hv h; rw [List.mem_singleton] at hv; subst hv; cases h)⟩

end Pages
